import Mathlib

/-!
# Verification of the RCSD pipeline orchestration core

This file embeds the RCSD (Research–Consensus–Spec–Decompose) pipeline
package in Lean 4 and proves properties of its orchestration core.

The Python package `rcsd` ships the exit-code table (`EXIT_CODES`) and the
lookup function (`get_exit_code`); those are translated directly from
`lib/rcsd/__init__.py`.  The orchestration components themselves
(Consensus Engine, HITL Gate, Stage Machine, Task Graph Builder) are only
declared in the package skeleton; they are modelled here from the
specification, each such definition carrying a doc comment that says so.
-/

/-- Translated from `lib/rcsd/__init__.py`: the `EXIT_CODES` dict, as an
association list in declaration order. -/
def EXIT_CODES : List (String × Nat) :=
  [("SUCCESS", 0),
   ("RESEARCH_FAILED", 30),
   ("CONSENSUS_FAILED", 31),
   ("CONSENSUS_REJECTED", 32),
   ("SPEC_FAILED", 33),
   ("SPEC_VALIDATION_FAILED", 34),
   ("DECOMPOSE_FAILED", 35),
   ("HITL_TIMEOUT", 36),
   ("HITL_REJECTED", 37),
   ("PIPELINE_ABORTED", 38),
   ("INVALID_STAGE", 39)]

/-- Key lookup in an association list, embedding Python dict indexing. -/
def lookupName (name : String) : List (String × Nat) → Option Nat
  | [] => none
  | (k, v) :: rest => if name = k then some v else lookupName name rest

/-- Translated from `lib/rcsd/__init__.py`: `get_exit_code(name)` returns
`EXIT_CODES[name]`; the Python `KeyError` on a missing key is embedded as
`none`. -/
def get_exit_code (name : String) : Option Nat :=
  lookupName name EXIT_CODES

/-- Translated from `lib/rcsd/__init__.py`: the `STAGES` tuple. -/
def STAGES : List String := ["research", "consensus", "spec", "decompose"]

/-- C2: the exit-code mapping assigns exactly the eleven documented values
and no other codes: each named code looks up to its documented value, the
table has exactly eleven entries, and its keys are pairwise distinct. -/
theorem exit_codes_exact :
    get_exit_code "SUCCESS" = some 0 ∧
    get_exit_code "RESEARCH_FAILED" = some 30 ∧
    get_exit_code "CONSENSUS_FAILED" = some 31 ∧
    get_exit_code "CONSENSUS_REJECTED" = some 32 ∧
    get_exit_code "SPEC_FAILED" = some 33 ∧
    get_exit_code "SPEC_VALIDATION_FAILED" = some 34 ∧
    get_exit_code "DECOMPOSE_FAILED" = some 35 ∧
    get_exit_code "HITL_TIMEOUT" = some 36 ∧
    get_exit_code "HITL_REJECTED" = some 37 ∧
    get_exit_code "PIPELINE_ABORTED" = some 38 ∧
    get_exit_code "INVALID_STAGE" = some 39 ∧
    EXIT_CODES.length = 11 ∧
    (EXIT_CODES.map Prod.fst).Nodup := by
  decide

/-- C10: `get_exit_code` returns the table's value on every defined name and
`none` (the embedding of Python's `KeyError`) exactly on undefined names;
being a pure lookup it never returns a value outside the table. -/
theorem get_exit_code_correct (name : String) :
    (∀ v : Nat, (name, v) ∈ EXIT_CODES → get_exit_code name = some v) ∧
    (name ∉ EXIT_CODES.map Prod.fst → get_exit_code name = none) ∧
    (∀ v : Nat, get_exit_code name = some v → (name, v) ∈ EXIT_CODES) := by
  refine ⟨?_, ?_, ?_⟩
  · intro v hv
    simp only [EXIT_CODES, List.mem_cons, List.not_mem_nil, or_false,
      Prod.mk.injEq] at hv
    rcases hv with ⟨h1, h2⟩ | ⟨h1, h2⟩ | ⟨h1, h2⟩ | ⟨h1, h2⟩ | ⟨h1, h2⟩ |
      ⟨h1, h2⟩ | ⟨h1, h2⟩ | ⟨h1, h2⟩ | ⟨h1, h2⟩ | ⟨h1, h2⟩ | ⟨h1, h2⟩ <;>
      subst h1 <;> subst h2 <;> rfl
  · intro h
    simp only [EXIT_CODES, List.map_cons, List.map_nil, List.mem_cons,
      List.not_mem_nil, or_false, not_or] at h
    obtain ⟨h1, h2, h3, h4, h5, h6, h7, h8, h9, h10, h11⟩ := h
    simp [get_exit_code, EXIT_CODES, lookupName,
      h1, h2, h3, h4, h5, h6, h7, h8, h9, h10, h11]
  · intro v hv
    by_cases h : name ∈ EXIT_CODES.map Prod.fst
    · simp only [EXIT_CODES, List.map_cons, List.map_nil, List.mem_cons,
        List.not_mem_nil, or_false] at h
      rcases h with h | h | h | h | h | h | h | h | h | h | h <;> subst h <;>
        simp [get_exit_code, EXIT_CODES, lookupName] at hv <;>
        simp [EXIT_CODES, hv]
    · simp only [EXIT_CODES, List.map_cons, List.map_nil, List.mem_cons,
        List.not_mem_nil, or_false, not_or] at h
      obtain ⟨h1, h2, h3, h4, h5, h6, h7, h8, h9, h10, h11⟩ := h
      simp [get_exit_code, EXIT_CODES, lookupName,
        h1, h2, h3, h4, h5, h6, h7, h8, h9, h10, h11] at hv

/-- Witness for C10: instantiates `get_exit_code_correct` at the concrete
name `"CONSENSUS_REJECTED"` and at an undefined name. -/
theorem get_exit_code_correct_witness :
    get_exit_code "CONSENSUS_REJECTED" = some 32 ∧
    get_exit_code "NOT_A_CODE" = none :=
  ⟨(get_exit_code_correct "CONSENSUS_REJECTED").1 32 (by decide),
   (get_exit_code_correct "NOT_A_CODE").2.1 (by decide)⟩

/-! ## Consensus Engine (§4.2)

Modelled from the spec: the package skeleton only declares the consensus
agents (`lib/rcsd/agents/consensus/__init__.py`); the engine itself is
modelled from §4.2 of the specification. -/

/-- Modelled from the spec: finding severity enum of a ValidatorVerdict. -/
inductive Severity where
  | blocking | major | minor | info
deriving DecidableEq, Repr

/-- Modelled from the spec: one finding of a validator — severity and
message. -/
structure Finding where
  severity : Severity
  message : String
deriving DecidableEq, Repr

/-- Modelled from the spec: one validator's output — score, findings, and a
boolean pass/fail flag. -/
structure ValidatorVerdict where
  score : Int
  findings : List Finding
  pass : Bool
deriving DecidableEq, Repr

/-- Modelled from the spec: the overall verdict enum of a ConsensusReport. -/
inductive Overall where
  | APPROVED | REJECTED | NEEDS_REVISION
deriving DecidableEq, Repr

/-- Modelled from the spec: the result of one Agent Invoker call for a
validator — a verdict, or a typed failure (`AGENT_TIMEOUT` / `AGENT_ERROR`). -/
inductive AgentResult where
  | ok (v : ValidatorVerdict)
  | timeout
  | error
deriving DecidableEq, Repr

/-- Modelled from the spec: the Synthesis agent's adjudication — which
blocking findings it explicitly overrides with justification, and the
overall verdict it proposes when no blocking finding is left unresolved. -/
structure SynthesisJudgment where
  override : Finding → Bool
  proposed : Overall

/-- Modelled from the spec: aggregation of the five ValidatorVerdicts plus
the Synthesis adjudication. -/
structure ConsensusReport where
  verdicts : List ValidatorVerdict
  overall : Overall
  unresolvedBlocking : List Finding

/-- Modelled from the spec: the stand-in verdict recorded for a validator
that fails (timeout/error) — a blocking finding of severity `blocking` with
message "validator unavailable". -/
def standIn : ValidatorVerdict :=
  { score := 0,
    findings := [{ severity := Severity.blocking, message := "validator unavailable" }],
    pass := false }

/-- Modelled from the spec: record one validator's result, converting a
failure into the stand-in verdict instead of aborting the round. -/
def recordResult : AgentResult → ValidatorVerdict
  | AgentResult.ok v => v
  | AgentResult.timeout => standIn
  | AgentResult.error => standIn

/-- Modelled from the spec: the five results (or their failure stand-ins)
collected by the join barrier, in validator order. -/
def collectVerdicts (rs : Fin 5 → AgentResult) : List ValidatorVerdict :=
  (List.finRange 5).map (fun i => recordResult (rs i))

/-- A finding of severity `blocking`. -/
def isBlocking (f : Finding) : Bool := f.severity = Severity.blocking

/-- All blocking findings reported across a verdict set. -/
def allBlocking (vs : List ValidatorVerdict) : List Finding :=
  (vs.flatMap ValidatorVerdict.findings).filter isBlocking

/-- Modelled from the spec: the blocking findings that Synthesis does not
explicitly override with justification. -/
def unresolved (vs : List ValidatorVerdict) (s : SynthesisJudgment) : List Finding :=
  (vs.flatMap ValidatorVerdict.findings).filter
    (fun f => isBlocking f && ! s.override f)

/-- Modelled from the spec: the Engine's pure aggregation.  If Synthesis
fails the verdict is forced to REJECTED (fail-closed); if any blocking
finding is left unresolved the verdict is REJECTED; otherwise the
Synthesis adjudication stands. -/
def aggregate (vs : List ValidatorVerdict) (syn : Option SynthesisJudgment) :
    ConsensusReport :=
  match syn with
  | none =>
    { verdicts := vs, overall := Overall.REJECTED, unresolvedBlocking := allBlocking vs }
  | some s =>
    match unresolved vs s with
    | [] => { verdicts := vs, overall := s.proposed, unresolvedBlocking := [] }
    | f :: fs =>
      { verdicts := vs, overall := Overall.REJECTED, unresolvedBlocking := f :: fs }

/-- Modelled from the spec: `runConsensus` — collect the five results (or
stand-ins), then invoke Synthesis on the full verdict set (`none` embeds a
Synthesis failure) and aggregate. -/
def runConsensus (rs : Fin 5 → AgentResult)
    (synth : List ValidatorVerdict → Option SynthesisJudgment) : ConsensusReport :=
  aggregate (collectVerdicts rs) (synth (collectVerdicts rs))

/-- A concrete passing verdict used by witnesses. -/
def passVerdict : ValidatorVerdict := { score := 10, findings := [], pass := true }

/-- A concrete Synthesis judgment that overrides nothing and proposes
approval. -/
def noOverride : SynthesisJudgment :=
  { override := fun _ => false, proposed := Overall.APPROVED }

/-- Aggregation on a failed Synthesis call. -/
theorem aggregate_none (vs : List ValidatorVerdict) :
    aggregate vs none =
      { verdicts := vs, overall := Overall.REJECTED,
        unresolvedBlocking := allBlocking vs } := rfl

/-- Aggregation when Synthesis leaves no blocking finding unresolved. -/
theorem aggregate_some_nil (vs : List ValidatorVerdict) (s : SynthesisJudgment)
    (h : unresolved vs s = []) :
    aggregate vs (some s) =
      { verdicts := vs, overall := s.proposed, unresolvedBlocking := [] } := by
  have hred : aggregate vs (some s) =
      match unresolved vs s with
      | [] => { verdicts := vs, overall := s.proposed, unresolvedBlocking := [] }
      | f :: fs =>
        { verdicts := vs, overall := Overall.REJECTED,
          unresolvedBlocking := f :: fs } := rfl
  rw [hred, h]

/-- Aggregation when some blocking finding stays unresolved. -/
theorem aggregate_some_cons (vs : List ValidatorVerdict) (s : SynthesisJudgment)
    (f : Finding) (fs : List Finding) (h : unresolved vs s = f :: fs) :
    aggregate vs (some s) =
      { verdicts := vs, overall := Overall.REJECTED,
        unresolvedBlocking := f :: fs } := by
  have hred : aggregate vs (some s) =
      match unresolved vs s with
      | [] => { verdicts := vs, overall := s.proposed, unresolvedBlocking := [] }
      | g :: gs =>
        { verdicts := vs, overall := Overall.REJECTED,
          unresolvedBlocking := g :: gs } := rfl
  rw [hred, h]

/-- The report's verdict list is always the collected five, whatever the
Synthesis outcome. -/
theorem runConsensus_verdicts (rs : Fin 5 → AgentResult)
    (synth : List ValidatorVerdict → Option SynthesisJudgment) :
    (runConsensus rs synth).verdicts = collectVerdicts rs := by
  unfold runConsensus
  cases hs : synth (collectVerdicts rs) with
  | none => rw [aggregate_none]
  | some s =>
    cases hu : unresolved (collectVerdicts rs) s with
    | nil => rw [aggregate_some_nil _ _ hu]
    | cons f fs => rw [aggregate_some_cons _ _ _ _ hu]

/-- The collected verdict list holds, at each validator index, the record of
that validator's result. -/
theorem collectVerdicts_get (rs : Fin 5 → AgentResult) (i : Fin 5) :
    (collectVerdicts rs)[i.val]? = some (recordResult (rs i)) := by
  fin_cases i <;> rfl

/-- C1: consensus invariant.  If the overall verdict is APPROVED then the
report carries no unresolved blocking finding and Synthesis left none
unresolved across the five verdicts; conversely, whenever some blocking
finding is not explicitly overridden by Synthesis, the overall verdict is
REJECTED. -/
theorem consensus_approved_iff_no_unresolved (rs : Fin 5 → AgentResult)
    (synth : List ValidatorVerdict → Option SynthesisJudgment) :
    ((runConsensus rs synth).overall = Overall.APPROVED →
      (runConsensus rs synth).unresolvedBlocking = [] ∧
      ∃ s, synth (collectVerdicts rs) = some s ∧
        unresolved (collectVerdicts rs) s = []) ∧
    (∀ s, synth (collectVerdicts rs) = some s →
      unresolved (collectVerdicts rs) s ≠ [] →
      (runConsensus rs synth).overall = Overall.REJECTED) := by
  cases hs : synth (collectVerdicts rs) with
  | none =>
    have hr : runConsensus rs synth =
        aggregate (collectVerdicts rs) none := by
      unfold runConsensus; rw [hs]
    rw [hr, aggregate_none]
    exact ⟨fun h => by simp at h, fun s hs' _ => Option.noConfusion hs'⟩
  | some s =>
    have hr : runConsensus rs synth =
        aggregate (collectVerdicts rs) (some s) := by
      unfold runConsensus; rw [hs]
    cases hu : unresolved (collectVerdicts rs) s with
    | nil =>
      rw [hr, aggregate_some_nil _ _ hu]
      refine ⟨fun _ => ⟨rfl, s, rfl, hu⟩, fun s' hs' hne => ?_⟩
      obtain rfl : s = s' := Option.some.inj hs'
      exact absurd hu hne
    | cons f fs =>
      rw [hr, aggregate_some_cons _ _ _ _ hu]
      exact ⟨fun h => by simp at h, fun s' hs' hne => rfl⟩

/-- Witness for C1: applies `consensus_approved_iff_no_unresolved` at a
round where all validators pass (APPROVED) and at a round where every
validator times out and Synthesis overrides nothing (REJECTED). -/
theorem consensus_approved_iff_no_unresolved_witness :
    ((runConsensus (fun _ => AgentResult.ok passVerdict)
        (fun _ => some noOverride)).unresolvedBlocking = [] ∧
      ∃ s, (fun _ : List ValidatorVerdict => some noOverride)
          (collectVerdicts (fun _ => AgentResult.ok passVerdict)) = some s ∧
        unresolved (collectVerdicts (fun _ => AgentResult.ok passVerdict)) s = []) ∧
    (runConsensus (fun _ => AgentResult.timeout)
        (fun _ => some noOverride)).overall = Overall.REJECTED := by
  constructor
  · exact (consensus_approved_iff_no_unresolved
      (fun _ => AgentResult.ok passVerdict) (fun _ => some noOverride)).1 rfl
  · exact (consensus_approved_iff_no_unresolved
      (fun _ => AgentResult.timeout) (fun _ => some noOverride)).2
      noOverride rfl (by decide)

/-- C3: a failed validator call (timeout or error) is recorded as the
stand-in verdict carrying a blocking finding with message
"validator unavailable", and the round still produces a report over all
five verdict slots — never a partial verdict set. -/
theorem validator_failure_recorded (rs : Fin 5 → AgentResult)
    (synth : List ValidatorVerdict → Option SynthesisJudgment) (i : Fin 5)
    (h : ∀ v, rs i ≠ AgentResult.ok v) :
    (runConsensus rs synth).verdicts.length = 5 ∧
    ∃ vv, (runConsensus rs synth).verdicts[i.val]? = some vv ∧
      Finding.mk Severity.blocking "validator unavailable" ∈ vv.findings := by
  have hrec : recordResult (rs i) = standIn := by
    cases hcase : rs i with
    | ok v => exact absurd hcase (h v)
    | timeout => rfl
    | error => rfl
  rw [runConsensus_verdicts]
  refine ⟨by simp [collectVerdicts], standIn, ?_, by simp [standIn]⟩
  rw [collectVerdicts_get, hrec]

/-- Witness for C3: applies `validator_failure_recorded` where validator 2
times out and the others pass. -/
theorem validator_failure_recorded_witness :
    (runConsensus
        (fun i => if i.val = 2 then AgentResult.timeout else AgentResult.ok passVerdict)
        (fun _ => some noOverride)).verdicts.length = 5 ∧
    ∃ vv, (runConsensus
        (fun i => if i.val = 2 then AgentResult.timeout else AgentResult.ok passVerdict)
        (fun _ => some noOverride)).verdicts[(2:Nat)]? = some vv ∧
      Finding.mk Severity.blocking "validator unavailable" ∈ vv.findings := by
  have := validator_failure_recorded
    (fun i => if i.val = 2 then AgentResult.timeout else AgentResult.ok passVerdict)
    (fun _ => some noOverride) ⟨2, by omega⟩
    (fun v hv => by simp at hv)
  exact this

/-- C4: if Synthesis itself fails, the round's overall verdict is forced to
REJECTED (fail-closed) — never APPROVED, never NEEDS_REVISION. -/
theorem synthesis_failure_fail_closed (rs : Fin 5 → AgentResult)
    (synth : List ValidatorVerdict → Option SynthesisJudgment)
    (h : synth (collectVerdicts rs) = none) :
    (runConsensus rs synth).overall = Overall.REJECTED ∧
    (runConsensus rs synth).overall ≠ Overall.APPROVED ∧
    (runConsensus rs synth).overall ≠ Overall.NEEDS_REVISION := by
  unfold runConsensus aggregate
  rw [h]
  exact ⟨rfl, by simp, by simp⟩

/-- Witness for C4: applies `synthesis_failure_fail_closed` to a round of
five passing validators whose Synthesis call fails. -/
theorem synthesis_failure_fail_closed_witness :
    (runConsensus (fun _ => AgentResult.ok passVerdict)
        (fun _ => none)).overall = Overall.REJECTED ∧
    (runConsensus (fun _ => AgentResult.ok passVerdict)
        (fun _ => none)).overall ≠ Overall.APPROVED ∧
    (runConsensus (fun _ => AgentResult.ok passVerdict)
        (fun _ => none)).overall ≠ Overall.NEEDS_REVISION :=
  synthesis_failure_fail_closed (fun _ => AgentResult.ok passVerdict)
    (fun _ => none) rfl

/-- Modelled from the spec: assemble the per-validator results from the
arrival-ordered list of (validator, result) pairs observed before the join
deadline; a validator that never arrives counts as a timeout. -/
def collectArrivals (arr : List (Fin 5 × AgentResult)) : Fin 5 → AgentResult :=
  fun i =>
    match arr.find? (fun p => decide (p.1 = i)) with
    | some p => p.2
    | none => AgentResult.timeout

/-- Key-based `find?` over an association list with pairwise-distinct keys
is invariant under permutation of the list. -/
theorem find_key_perm {α β : Type} [DecidableEq α] {l₁ l₂ : List (α × β)}
    (h : l₁.Perm l₂) (hnd : (l₁.map Prod.fst).Nodup) (i : α) :
    l₁.find? (fun p => decide (p.1 = i)) = l₂.find? (fun p => decide (p.1 = i)) := by
  induction h with
  | nil => rfl
  | cons x h ih =>
    simp only [List.map_cons, List.nodup_cons] at hnd
    by_cases hx : x.1 = i
    · simp [List.find?, hx]
    · simp only [List.find?_cons, decide_eq_false hx]
      exact ih hnd.2
  | swap x y l =>
    simp only [List.map_cons, List.nodup_cons, List.mem_cons, not_or] at hnd
    by_cases hy : y.1 = i <;> by_cases hx : x.1 = i
    · exact absurd (hy.trans hx.symm) hnd.1.1
    · simp [List.find?, hy, hx]
    · simp [List.find?, hy, hx]
    · simp [List.find?, hy, hx]
  | trans h₁ h₂ ih₁ ih₂ =>
    rw [ih₁ hnd, ih₂ (((h₁.map Prod.fst).nodup_iff).mp hnd)]

/-- C9: the Engine's aggregation is deterministic and order-independent —
two rounds fed the same five results in any arrival orders (each validator
reporting once) yield the identical report. -/
theorem consensus_order_independent (arr₁ arr₂ : List (Fin 5 × AgentResult))
    (synth : List ValidatorVerdict → Option SynthesisJudgment)
    (hp : arr₁.Perm arr₂) (hnd : (arr₁.map Prod.fst).Nodup) :
    runConsensus (collectArrivals arr₁) synth =
      runConsensus (collectArrivals arr₂) synth := by
  have harr : collectArrivals arr₁ = collectArrivals arr₂ := by
    funext i
    unfold collectArrivals
    rw [find_key_perm hp hnd i]
  rw [harr]

/-- Witness for C9: applies `consensus_order_independent` to two concrete
arrival orders of the same two results. -/
theorem consensus_order_independent_witness :
    runConsensus (collectArrivals
        [((0 : Fin 5), AgentResult.ok passVerdict), ((1 : Fin 5), AgentResult.timeout)])
      (fun _ => some noOverride) =
    runConsensus (collectArrivals
        [((1 : Fin 5), AgentResult.timeout), ((0 : Fin 5), AgentResult.ok passVerdict)])
      (fun _ => some noOverride) :=
  consensus_order_independent _ _ _ (by decide) (by decide)

/-! ## Task Graph Builder (§4.5)

Modelled from the spec: the skeleton only names the decompose stage; the
Builder is modelled from §4.5 — validate dependency references, empty
descriptions, and acyclicity via a stable topological-sort attempt. -/

/-- Modelled from the spec: an atomic task as emitted by Decompose — id,
description, dependency ids, estimated effort. -/
structure RawTask where
  id : String
  description : String
  deps : List String
  effort : Nat
deriving DecidableEq, Repr

/-- Modelled from the spec: the Builder's failure conditions. -/
inductive BuildError where
  | CYCLE_DETECTED | DANGLING_DEPENDENCY | EMPTY_DESCRIPTION
deriving DecidableEq, Repr

/-- The ids of a task list, in declaration order. -/
def taskIds (raw : List RawTask) : List String := raw.map RawTask.id

/-- A task all of whose dependencies have already been emitted. -/
def ready (done : List String) (t : RawTask) : Bool :=
  t.deps.all (fun d => decide (d ∈ done))

/-- Modelled from the spec: pick the first task, in declaration order, whose
dependencies are all emitted; return it with the rest in order. -/
def pickReady (done : List String) : List RawTask → Option (RawTask × List RawTask)
  | [] => none
  | t :: ts =>
    if ready done t then some (t, ts)
    else
      match pickReady done ts with
      | some (u, us) => some (u, t :: us)
      | none => none

/-- Modelled from the spec: the topological-sort attempt (Kahn's algorithm
with stable first-ready selection); `none` signals a cycle. -/
def topo : Nat → List String → List RawTask → Option (List RawTask)
  | 0, _, rem => if rem.isEmpty then some [] else none
  | fuel + 1, done, rem =>
    match pickReady done rem with
    | none => if rem.isEmpty then some [] else none
    | some (t, rest) => (topo fuel (t.id :: done) rest).map (fun g => t :: g)

/-- Modelled from the spec: `build(rawTasks)` — dangling-dependency check,
empty-description check, then the topological-sort attempt. -/
def build (raw : List RawTask) : Except BuildError (List RawTask) :=
  if raw.any (fun t => t.deps.any (fun d => decide (d ∉ taskIds raw))) then
    Except.error BuildError.DANGLING_DEPENDENCY
  else if raw.any (fun t => decide (t.description = "")) then
    Except.error BuildError.EMPTY_DESCRIPTION
  else
    match topo raw.length [] raw with
    | some g => Except.ok g
    | none => Except.error BuildError.CYCLE_DETECTED

/-- One direct dependency step among the tasks: id `a` names a task that
depends on id `b`. -/
def depends1 (tasks : List RawTask) (a b : String) : Prop :=
  ∃ t ∈ tasks, t.id = a ∧ b ∈ t.deps

/-- Transitive dependence among the tasks' ids. -/
def dependsOn (tasks : List RawTask) : String → String → Prop :=
  Relation.TransGen (depends1 tasks)

/-- A task set with a transitive self-dependency. -/
def hasCycle (tasks : List RawTask) : Prop :=
  ∃ a, dependsOn tasks a a

/-- Every referenced dependency id exists among the tasks. -/
def depsExist (raw : List RawTask) : Prop :=
  ∀ t ∈ raw, ∀ d ∈ t.deps, d ∈ taskIds raw

/-- Every task has a non-empty description. -/
def descsOk (raw : List RawTask) : Prop :=
  ∀ t ∈ raw, t.description ≠ ""

/-- A valid topological order relative to the already-emitted ids: each
task's dependencies lie among `done` or among the earlier tasks. -/
def sortedOk (done : List String) : List RawTask → Prop
  | [] => True
  | t :: ts => (∀ d ∈ t.deps, d ∈ done) ∧ sortedOk (t.id :: done) ts

/-! ## HITL Gate (§4.3)

Modelled from the spec: the skeleton only names the orchestration `hitl`
submodule; the gate is modelled from §4.3. -/

/-- Modelled from the spec: the reviewer's verdict inside a HITLDecision. -/
inductive ReviewerVerdict where
  | APPROVE | REJECT
deriving DecidableEq, Repr

/-- Modelled from the spec: a reviewer decision — verdict, optional comment,
timestamp. -/
structure HITLDecision where
  verdict : ReviewerVerdict
  comment : String
  timestamp : Nat
deriving DecidableEq, Repr

/-- Modelled from the spec: the gate's state machine
`OPEN -> {APPROVED, REJECTED, TIMED_OUT}`. -/
inductive GateState where
  | OPEN | G_APPROVED | G_REJECTED | TIMED_OUT
deriving DecidableEq, Repr

/-- Modelled from the spec: resolve a gate opened with `deadline`: the first
decision to arrive strictly before the deadline resolves it; otherwise the
deadline elapses and the gate resolves `TIMED_OUT`. -/
def resolveGate (deadline : Nat) (arrival : Option HITLDecision) : GateState :=
  match arrival with
  | some d =>
    if d.timestamp < deadline then
      match d.verdict with
      | ReviewerVerdict.APPROVE => GateState.G_APPROVED
      | ReviewerVerdict.REJECT => GateState.G_REJECTED
    else GateState.TIMED_OUT
  | none => GateState.TIMED_OUT

/-- Modelled from the spec: events a gate instance can observe. -/
inductive GateEvent where
  | decisionArrives (d : HITLDecision)
  | deadlineElapses
deriving DecidableEq, Repr

/-- Modelled from the spec: the gate's transition function; a resolved gate
is single-use and absorbs every further event. -/
def gateStep (s : GateState) (e : GateEvent) : GateState :=
  match s with
  | GateState.OPEN =>
    match e with
    | GateEvent.decisionArrives d =>
      match d.verdict with
      | ReviewerVerdict.APPROVE => GateState.G_APPROVED
      | ReviewerVerdict.REJECT => GateState.G_REJECTED
    | GateEvent.deadlineElapses => GateState.TIMED_OUT
  | s => s

/-! ## Stage Machine (§4.4)

Modelled from the spec: the skeleton only names the orchestration
`pipeline` submodule; the stage machine is modelled from the §4.4
transition table, with exit codes named by the keys of the real
`EXIT_CODES` table. -/

/-- Modelled from the spec: the pipeline stage enum. -/
inductive Stage where
  | RESEARCH | CONSENSUS | SPEC | DECOMPOSE | DONE | ABORTED
deriving DecidableEq, Repr

/-- Modelled from the spec: outcome of the Spec stage collaborators. -/
inductive SpecOutcome where
  | ok | genFailure | validationFailure
deriving DecidableEq, Repr

/-- Modelled from the spec: the inputs of one consensus round — the five
validator results and the Synthesis behavior. -/
structure ConsensusInputs where
  results : Fin 5 → AgentResult
  synth : List ValidatorVerdict → Option SynthesisJudgment

/-- Modelled from the spec: the external collaborators' behavior for one
run — research/consensus per revision attempt, Spec outcome, the optional
HITL gate after Spec, the decomposed tasks, and the external abort flag. -/
structure PipelineEnv where
  abortSignal : Bool
  research : Nat → Bool
  consensusRound : Nat → Option ConsensusInputs
  specGen : SpecOutcome
  gateConfigured : Bool
  gateDeadline : Nat
  gateArrival : Option HITLDecision
  rawTasks : List RawTask

/-- Modelled from the spec: the Decompose stage — DAG validated means DONE
with SUCCESS, otherwise ABORTED with DECOMPOSE_FAILED. -/
def decomposePhase (env : PipelineEnv) : Stage × String :=
  match build env.rawTasks with
  | Except.ok _ => (Stage.DONE, "SUCCESS")
  | Except.error _ => (Stage.ABORTED, "DECOMPOSE_FAILED")

/-- Modelled from the spec: the Spec stage and the optional HITL gate before
advancing to Decompose.  An unresolved (OPEN) gate would be an unrecognized
verdict, the fatal INVALID_STAGE condition; `resolveGate` never produces
it. -/
def specPhase (env : PipelineEnv) : Stage × String :=
  match env.specGen with
  | SpecOutcome.genFailure => (Stage.ABORTED, "SPEC_FAILED")
  | SpecOutcome.validationFailure => (Stage.ABORTED, "SPEC_VALIDATION_FAILED")
  | SpecOutcome.ok =>
    if env.gateConfigured then
      match resolveGate env.gateDeadline env.gateArrival with
      | GateState.G_REJECTED => (Stage.ABORTED, "HITL_REJECTED")
      | GateState.TIMED_OUT => (Stage.ABORTED, "HITL_TIMEOUT")
      | GateState.G_APPROVED => decomposePhase env
      | GateState.OPEN => (Stage.ABORTED, "INVALID_STAGE")
    else decomposePhase env

/-- Modelled from the spec: the RESEARCH→CONSENSUS loop with bounded
revision retries; the fuel is one more than the configured maximum revision
count, so exhausting it means NEEDS_REVISION exceeded the bound
(CONSENSUS_FAILED). -/
def consensusLoop (env : PipelineEnv) : Nat → Nat → Stage × String
  | 0, _ => (Stage.ABORTED, "CONSENSUS_FAILED")
  | fuel + 1, attempt =>
    if env.research attempt then
      match env.consensusRound attempt with
      | none => (Stage.ABORTED, "CONSENSUS_FAILED")
      | some ci =>
        match (runConsensus ci.results ci.synth).overall with
        | Overall.REJECTED => (Stage.ABORTED, "CONSENSUS_REJECTED")
        | Overall.NEEDS_REVISION => consensusLoop env fuel (attempt + 1)
        | Overall.APPROVED => specPhase env
    else (Stage.ABORTED, "RESEARCH_FAILED")

/-- Modelled from the spec: one full pipeline run under a configured maximum
revision count, ending in a terminal stage and an exit-code name. -/
def runPipeline (maxRev : Nat) (env : PipelineEnv) : Stage × String :=
  if env.abortSignal then (Stage.ABORTED, "PIPELINE_ABORTED")
  else consensusLoop env (maxRev + 1) 0

/-- A terminal result: a single terminal stage, an exit-code name defined in
the real `EXIT_CODES` table, and DONE exactly on SUCCESS. -/
def terminalOk (r : Stage × String) : Prop :=
  (r.1 = Stage.DONE ∨ r.1 = Stage.ABORTED) ∧
  (get_exit_code r.2).isSome = true ∧
  (r.1 = Stage.DONE ↔ r.2 = "SUCCESS")

/-- The successful terminal result is valid. -/
theorem terminalOk_done : terminalOk (Stage.DONE, "SUCCESS") := by
  refine ⟨Or.inl rfl, by decide, ?_⟩
  exact ⟨fun _ => rfl, fun _ => rfl⟩

/-- Any abort on a defined non-SUCCESS exit-code name is a valid terminal
result. -/
theorem terminalOk_abort (nm : String) (h : (get_exit_code nm).isSome = true)
    (h2 : nm ≠ "SUCCESS") : terminalOk (Stage.ABORTED, nm) := by
  refine ⟨Or.inr rfl, h, ?_⟩
  constructor
  · intro hc; exact Stage.noConfusion hc
  · intro hc; exact absurd hc h2

/-- The Decompose stage always lands in a terminal state with a defined
exit-code name. -/
theorem decomposePhase_terminalOk (env : PipelineEnv) :
    terminalOk (decomposePhase env) := by
  unfold decomposePhase
  split
  · exact terminalOk_done
  · exact terminalOk_abort "DECOMPOSE_FAILED" (by decide) (by decide)

/-- The Spec stage (with its optional HITL gate) always lands in a terminal
state with a defined exit-code name. -/
theorem specPhase_terminalOk (env : PipelineEnv) :
    terminalOk (specPhase env) := by
  unfold specPhase
  split
  · exact terminalOk_abort "SPEC_FAILED" (by decide) (by decide)
  · exact terminalOk_abort "SPEC_VALIDATION_FAILED" (by decide) (by decide)
  · split
    · split
      · exact terminalOk_abort "HITL_REJECTED" (by decide) (by decide)
      · exact terminalOk_abort "HITL_TIMEOUT" (by decide) (by decide)
      · exact decomposePhase_terminalOk env
      · exact terminalOk_abort "INVALID_STAGE" (by decide) (by decide)
    · exact decomposePhase_terminalOk env

/-- The research/consensus loop always lands in a terminal state with a
defined exit-code name, whatever fuel and attempt counter it starts from. -/
theorem consensusLoop_terminalOk (env : PipelineEnv) :
    ∀ fuel attempt, terminalOk (consensusLoop env fuel attempt) := by
  intro fuel
  induction fuel with
  | zero =>
    exact fun _ => terminalOk_abort "CONSENSUS_FAILED" (by decide) (by decide)
  | succ n ih =>
    intro attempt
    unfold consensusLoop
    split
    · split
      · exact terminalOk_abort "CONSENSUS_FAILED" (by decide) (by decide)
      · split
        · exact terminalOk_abort "CONSENSUS_REJECTED" (by decide) (by decide)
        · exact ih (attempt + 1)
        · exact specPhase_terminalOk env
    · exact terminalOk_abort "RESEARCH_FAILED" (by decide) (by decide)

/-- If research succeeds and consensus answers NEEDS_REVISION on every
attempt the fuel allows, the loop exhausts its fuel and aborts with
CONSENSUS_FAILED. -/
theorem consensusLoop_all_revision (env : PipelineEnv) :
    ∀ fuel attempt,
      (∀ k, k < fuel → env.research (attempt + k) = true ∧
        ∃ ci, env.consensusRound (attempt + k) = some ci ∧
          (runConsensus ci.results ci.synth).overall = Overall.NEEDS_REVISION) →
      consensusLoop env fuel attempt = (Stage.ABORTED, "CONSENSUS_FAILED") := by
  intro fuel
  induction fuel with
  | zero => intro attempt _; rfl
  | succ n ih =>
    intro attempt h
    obtain ⟨hr, ci, hci, hov⟩ : env.research attempt = true ∧
        ∃ ci, env.consensusRound attempt = some ci ∧
          (runConsensus ci.results ci.synth).overall = Overall.NEEDS_REVISION := by
      have h0 := h 0 (Nat.succ_pos n)
      simpa using h0
    have hnext : ∀ k, k < n → env.research (attempt + 1 + k) = true ∧
        ∃ ci, env.consensusRound (attempt + 1 + k) = some ci ∧
          (runConsensus ci.results ci.synth).overall = Overall.NEEDS_REVISION := by
      intro k hk
      have := h (k + 1) (by omega)
      rwa [show attempt + (k + 1) = attempt + 1 + k by omega] at this
    unfold consensusLoop
    rw [hr, if_pos rfl]
    split
    · rename_i hnone
      rw [hci] at hnone
    · rename_i ci' hsome
      rw [hci] at hsome
      obtain rfl : ci = ci' := Option.some.inj hsome
      split
      · rename_i hov'
        rw [hov] at hov'
        cases hov'
      · exact ih (attempt + 1) hnext
      · rename_i hov'
        rw [hov] at hov'
        cases hov'

/-- One approved consensus round hands control to the Spec stage. -/
theorem consensusLoop_approved (env : PipelineEnv) (fuel attempt : Nat)
    (ci : ConsensusInputs) (hres : env.research attempt = true)
    (hci : env.consensusRound attempt = some ci)
    (hov : (runConsensus ci.results ci.synth).overall = Overall.APPROVED) :
    consensusLoop env (fuel + 1) attempt = specPhase env := by
  unfold consensusLoop
  rw [hres, if_pos rfl]
  split
  · rename_i hnone
    rw [hci] at hnone
    cases hnone
  · rename_i ci' hsome
    rw [hci] at hsome
    obtain rfl : ci = ci' := Option.some.inj hsome
    split
    · rename_i hov'
      rw [hov] at hov'
      cases hov'
    · rename_i hov'
      rw [hov] at hov'
      cases hov'
    · rfl

/-- A configured gate that resolves TIMED_OUT aborts the Spec stage with
HITL_TIMEOUT. -/
theorem specPhase_gate_timeout (env : PipelineEnv)
    (hspec : env.specGen = SpecOutcome.ok) (hconf : env.gateConfigured = true)
    (hgate : resolveGate env.gateDeadline env.gateArrival = GateState.TIMED_OUT) :
    specPhase env = (Stage.ABORTED, "HITL_TIMEOUT") := by
  unfold specPhase
  split
  · rename_i hsg
    rw [hspec] at hsg
    cases hsg
  · rename_i hsg
    rw [hspec] at hsg
    cases hsg
  · rw [hconf, if_pos rfl]
    split
    · rename_i hg
      rw [hgate] at hg
      cases hg
    · rfl
    · rename_i hg
      rw [hgate] at hg
      cases hg
    · rename_i hg
      rw [hgate] at hg
      cases hg

/-- C5: every run lands in exactly one terminal state (DONE or ABORTED) with
an exit-code name defined in the real `EXIT_CODES` table, DONE exactly on
SUCCESS; and a run whose consensus stage answers NEEDS_REVISION on every
attempt up to the configured maximum aborts with CONSENSUS_FAILED = 31. -/
theorem pipeline_terminates_single_exit (maxRev : Nat) (env : PipelineEnv) :
    ((runPipeline maxRev env).1 = Stage.DONE ∨
      (runPipeline maxRev env).1 = Stage.ABORTED) ∧
    (get_exit_code (runPipeline maxRev env).2).isSome = true ∧
    ((runPipeline maxRev env).1 = Stage.DONE ↔
      (runPipeline maxRev env).2 = "SUCCESS") ∧
    (env.abortSignal = false →
      (∀ k, k ≤ maxRev → env.research k = true ∧
        ∃ ci, env.consensusRound k = some ci ∧
          (runConsensus ci.results ci.synth).overall = Overall.NEEDS_REVISION) →
      runPipeline maxRev env = (Stage.ABORTED, "CONSENSUS_FAILED") ∧
      get_exit_code "CONSENSUS_FAILED" = some 31) := by
  have hterm : terminalOk (runPipeline maxRev env) := by
    unfold runPipeline
    split
    · exact terminalOk_abort "PIPELINE_ABORTED" (by decide) (by decide)
    · exact consensusLoop_terminalOk env (maxRev + 1) 0
  refine ⟨hterm.1, hterm.2.1, hterm.2.2, fun hab hrev => ⟨?_, by decide⟩⟩
  unfold runPipeline
  rw [hab, if_neg (by simp)]
  exact consensusLoop_all_revision env (maxRev + 1) 0
    (fun k hk => by simpa using hrev k (by omega))

/-- The always-NEEDS_REVISION Synthesis behavior used by the C5 witness. -/
def nrJudgment : SynthesisJudgment :=
  { override := fun _ => false, proposed := Overall.NEEDS_REVISION }

/-- A concrete environment whose consensus answers NEEDS_REVISION on every
attempt. -/
def envRevise : PipelineEnv :=
  { abortSignal := false,
    research := fun _ => true,
    consensusRound := fun _ => some
      { results := fun _ => AgentResult.ok passVerdict,
        synth := fun _ => some nrJudgment },
    specGen := SpecOutcome.ok,
    gateConfigured := false,
    gateDeadline := 0,
    gateArrival := none,
    rawTasks := [] }

/-- Witness for C5: three NEEDS_REVISION rounds exceed a configured maximum
of two revisions, so the run aborts with CONSENSUS_FAILED (31). -/
theorem pipeline_terminates_single_exit_witness :
    runPipeline 2 envRevise = (Stage.ABORTED, "CONSENSUS_FAILED") ∧
    get_exit_code "CONSENSUS_FAILED" = some 31 :=
  (pipeline_terminates_single_exit 2 envRevise).2.2.2 rfl
    (fun _ _ => ⟨rfl, _, rfl, rfl⟩)

/-- C8: a HITL gate opened with a deadline resolves TIMED_OUT whenever no
decision arrives strictly before the deadline; a resolved gate is never
OPEN and absorbs every further event (single-use); and a timed-out gate
makes the run abort with exit code HITL_TIMEOUT = 36. -/
theorem hitl_gate_timeout (deadline : Nat) (arrival : Option HITLDecision)
    (env : PipelineEnv) :
    ((∀ d, arrival = some d → deadline ≤ d.timestamp) →
      resolveGate deadline arrival = GateState.TIMED_OUT) ∧
    resolveGate deadline arrival ≠ GateState.OPEN ∧
    (∀ (g : GateState) (e : GateEvent), g ≠ GateState.OPEN → gateStep g e = g) ∧
    (env.abortSignal = false → env.research 0 = true →
      (∃ ci, env.consensusRound 0 = some ci ∧
        (runConsensus ci.results ci.synth).overall = Overall.APPROVED) →
      env.specGen = SpecOutcome.ok →
      env.gateConfigured = true →
      resolveGate env.gateDeadline env.gateArrival = GateState.TIMED_OUT →
      ∀ maxRev, runPipeline maxRev env = (Stage.ABORTED, "HITL_TIMEOUT") ∧
        get_exit_code "HITL_TIMEOUT" = some 36) := by
  refine ⟨?_, ?_, ?_, ?_⟩
  · intro h
    cases arrival with
    | none => rfl
    | some d =>
      have hle := h d rfl
      simp only [resolveGate]
      rw [if_neg (by omega)]
  · cases arrival with
    | none => simp [resolveGate]
    | some d =>
      simp only [resolveGate]
      split
      · cases d.verdict <;> simp
      · simp
  · intro g e hg
    cases g with
    | OPEN => exact absurd rfl hg
    | G_APPROVED => rfl
    | G_REJECTED => rfl
    | TIMED_OUT => rfl
  · intro hab hres hex hspec hconf hgate maxRev
    obtain ⟨ci, hci, hov⟩ := hex
    refine ⟨?_, by decide⟩
    unfold runPipeline
    rw [hab, if_neg (by simp)]
    rw [consensusLoop_approved env maxRev 0 ci hres hci hov]
    exact specPhase_gate_timeout env hspec hconf hgate

/-- A concrete environment whose single approved round reaches a configured
gate with a 60-second deadline and no reviewer decision. -/
def envGate : PipelineEnv :=
  { abortSignal := false,
    research := fun _ => true,
    consensusRound := fun _ => some
      { results := fun _ => AgentResult.ok passVerdict,
        synth := fun _ => some noOverride },
    specGen := SpecOutcome.ok,
    gateConfigured := true,
    gateDeadline := 60,
    gateArrival := none,
    rawTasks := [] }

/-- Witness for C8: the 60-second gate with no arriving decision times out
and the run exits with HITL_TIMEOUT (36); a resolved gate absorbs a late
decision. -/
theorem hitl_gate_timeout_witness :
    resolveGate 60 none = GateState.TIMED_OUT ∧
    gateStep GateState.TIMED_OUT
      (GateEvent.decisionArrives
        { verdict := ReviewerVerdict.APPROVE, comment := "", timestamp := 70 }) =
      GateState.TIMED_OUT ∧
    runPipeline 0 envGate = (Stage.ABORTED, "HITL_TIMEOUT") ∧
    get_exit_code "HITL_TIMEOUT" = some 36 := by
  have h := hitl_gate_timeout 60 none envGate
  refine ⟨h.1 (fun d hd => by cases hd), h.2.2.1 _ _ (by decide), ?_, ?_⟩
  · exact (h.2.2.2 rfl rfl ⟨_, rfl, rfl⟩ rfl rfl rfl 0).1
  · exact (h.2.2.2 rfl rfl ⟨_, rfl, rfl⟩ rfl rfl rfl 0).2

/-- `pickReady` never succeeds on the empty list, and a success decomposes
the input: the picked task is the first ready one, the rest keeps the
declaration order. -/
theorem pickReady_some (done : List String) :
    ∀ (rem : List RawTask) (t : RawTask) (rest : List RawTask),
      pickReady done rem = some (t, rest) →
      ∃ pre post, rem = pre ++ t :: post ∧ rest = pre ++ post ∧
        ready done t = true ∧ ∀ u ∈ pre, ready done u = false := by
  intro rem
  induction rem with
  | nil => intro t rest h; cases h
  | cons v ts ih =>
    intro t rest h
    by_cases hr : ready done v = true
    · have heq : pickReady done (v :: ts) = some (v, ts) := by
        unfold pickReady; rw [if_pos hr]
      rw [heq] at h
      have h1 : v = t := congrArg Prod.fst (Option.some.inj h)
      have h2 : ts = rest := congrArg Prod.snd (Option.some.inj h)
      subst h1; subst h2
      exact ⟨[], ts, rfl, rfl, hr, fun u hu => absurd hu (List.not_mem_nil u)⟩
    · have hrf : ready done v = false := by
        revert hr; cases ready done v <;> simp
      cases hp : pickReady done ts with
      | none =>
        have heq : pickReady done (v :: ts) = none := by
          unfold pickReady; rw [if_neg hr, hp]
        rw [heq] at h
        cases h
      | some p =>
        obtain ⟨u, us⟩ := p
        have heq : pickReady done (v :: ts) = some (u, v :: us) := by
          unfold pickReady; rw [if_neg hr, hp]
        rw [heq] at h
        have h1 : u = t := congrArg Prod.fst (Option.some.inj h)
        have h2 : v :: us = rest := congrArg Prod.snd (Option.some.inj h)
        subst h1; subst h2
        obtain ⟨pre, post, hts, hus, hready, hpre⟩ := ih u us hp
        refine ⟨v :: pre, post, ?_, ?_, hready, ?_⟩
        · rw [List.cons_append, hts]
        · rw [List.cons_append, hus]
        · intro w hw
          rcases List.mem_cons.mp hw with rfl | hw2
          · exact hrf
          · exact hpre w hw2

/-- If `pickReady` finds nothing, no remaining task is ready. -/
theorem pickReady_none (done : List String) :
    ∀ (rem : List RawTask), pickReady done rem = none →
      ∀ u ∈ rem, ready done u = false := by
  intro rem
  induction rem with
  | nil => intro _ u hu; cases hu
  | cons v ts ih =>
    intro h u hu
    by_cases hr : ready done v = true
    · have heq : pickReady done (v :: ts) = some (v, ts) := by
        unfold pickReady; rw [if_pos hr]
      rw [heq] at h
      cases h
    · have hrf : ready done v = false := by
        revert hr; cases ready done v <;> simp
      cases hp : pickReady done ts with
      | some p =>
        obtain ⟨w, ws⟩ := p
        have heq : pickReady done (v :: ts) = some (w, v :: ws) := by
          unfold pickReady; rw [if_neg hr, hp]
        rw [heq] at h
        cases h
      | none =>
        rcases List.mem_cons.mp hu with rfl | hu2
        · exact hrf
        · exact ih hp u hu2

/-- Unfolding `topo` at zero fuel. -/
theorem topo_zero (done : List String) (rem : List RawTask) :
    topo 0 done rem = if rem.isEmpty then some [] else none := rfl

/-- Unfolding `topo` when no task is ready. -/
theorem topo_succ_none (fuel : Nat) (done : List String) (rem : List RawTask)
    (h : pickReady done rem = none) :
    topo (fuel + 1) done rem = if rem.isEmpty then some [] else none := by
  unfold topo
  rw [h]

/-- Unfolding `topo` when the first ready task is found. -/
theorem topo_succ_some (fuel : Nat) (done : List String) (rem : List RawTask)
    (t : RawTask) (rest : List RawTask) (h : pickReady done rem = some (t, rest)) :
    topo (fuel + 1) done rem = (topo fuel (t.id :: done) rest).map (fun g => t :: g) := by
  conv_lhs => unfold topo
  rw [h]

/-- A successful topological-sort attempt yields a list in which every
task's dependencies are already emitted. -/
theorem topo_sorted :
    ∀ (fuel : Nat) (done : List String) (rem g : List RawTask),
      topo fuel done rem = some g → sortedOk done g := by
  intro fuel
  induction fuel with
  | zero =>
    intro done rem g h
    cases rem with
    | nil =>
      rw [topo_zero] at h
      have hg : ([] : List RawTask) = g := Option.some.inj h
      rw [← hg]
      trivial
    | cons t ts =>
      rw [topo_zero] at h
      cases h
  | succ k ih =>
    intro done rem g h
    cases hp : pickReady done rem with
    | none =>
      rw [topo_succ_none k done rem hp] at h
      cases rem with
      | nil =>
        have hg : ([] : List RawTask) = g := Option.some.inj h
        rw [← hg]
        trivial
      | cons t ts => cases h
    | some p =>
      obtain ⟨t, rest⟩ := p
      rw [topo_succ_some k done rem t rest hp] at h
      cases ht : topo k (t.id :: done) rest with
      | none => rw [ht] at h; cases h
      | some g' =>
        rw [ht] at h
        have hg : t :: g' = g := Option.some.inj h
        rw [← hg]
        obtain ⟨pre, post, _, _, hready, _⟩ := pickReady_some done rem t rest hp
        refine ⟨?_, ih (t.id :: done) rest g' ht⟩
        intro d hd
        have hall := List.all_eq_true.mp hready d hd
        exact of_decide_eq_true hall

/-- A successful topological-sort attempt returns a permutation of its
input. -/
theorem topo_perm :
    ∀ (fuel : Nat) (done : List String) (rem g : List RawTask),
      topo fuel done rem = some g → g.Perm rem := by
  intro fuel
  induction fuel with
  | zero =>
    intro done rem g h
    cases rem with
    | nil =>
      rw [topo_zero] at h
      have hg : ([] : List RawTask) = g := Option.some.inj h
      rw [← hg]
    | cons t ts =>
      rw [topo_zero] at h
      cases h
  | succ k ih =>
    intro done rem g h
    cases hp : pickReady done rem with
    | none =>
      rw [topo_succ_none k done rem hp] at h
      cases rem with
      | nil =>
        have hg : ([] : List RawTask) = g := Option.some.inj h
        rw [← hg]
      | cons t ts => cases h
    | some p =>
      obtain ⟨t, rest⟩ := p
      rw [topo_succ_some k done rem t rest hp] at h
      cases ht : topo k (t.id :: done) rest with
      | none => rw [ht] at h; cases h
      | some g' =>
        rw [ht] at h
        have hg : t :: g' = g := Option.some.inj h
        rw [← hg]
        obtain ⟨pre, post, hrem, hrest, _, _⟩ := pickReady_some done rem t rest hp
        have h1 : (t :: g').Perm (t :: rest) := (ih (t.id :: done) rest g' ht).cons t
        have h2 : (t :: rest).Perm rem := by
          rw [hrem, hrest]
          exact List.perm_middle.symm
        exact h1.trans h2

/-- `topo` returns an already-sorted input unchanged. -/
theorem topo_of_sorted (l : List RawTask) :
    ∀ done, sortedOk done l → topo l.length done l = some l := by
  induction l with
  | nil => intro done _; rfl
  | cons t ts ih =>
    intro done hs
    obtain ⟨hd, hts⟩ := hs
    have hready : ready done t = true := by
      unfold ready
      rw [List.all_eq_true]
      intro d hdm
      exact decide_eq_true (hd d hdm)
    have hpick : pickReady done (t :: ts) = some (t, ts) := by
      unfold pickReady; rw [if_pos hready]
    rw [show (t :: ts).length = ts.length + 1 from rfl,
      topo_succ_some ts.length done (t :: ts) t ts hpick, ih (t.id :: done) hts]
    rfl

/-- In a sorted list every dependency is either initially done or the id of
some task in the list. -/
theorem sortedOk_depsClosed (l : List RawTask) :
    ∀ done, sortedOk done l →
      ∀ t ∈ l, ∀ d ∈ t.deps, d ∈ done ∨ d ∈ taskIds l := by
  induction l with
  | nil => intro done _ t ht; cases ht
  | cons v ts ih =>
    intro done hs t ht d hd
    obtain ⟨hv, hts⟩ := hs
    rcases List.mem_cons.mp ht with rfl | ht2
    · exact Or.inl (hv d hd)
    · rcases ih (v.id :: done) hts t ht2 d hd with h | h
      · rcases List.mem_cons.mp h with rfl | h2
        · exact Or.inr (List.mem_cons_self _ _)
        · exact Or.inl h2
      · exact Or.inr (List.mem_cons_of_mem _ h)

/-- If every task in a nonempty set has a dependency inside the set, the
set contains a transitive self-dependency (pigeonhole over the ids). -/
theorem cycle_of_step (rem : List RawTask) (t₀ : RawTask) (h0 : t₀ ∈ rem)
    (hstep : ∀ t ∈ rem, ∃ u ∈ rem, u.id ∈ t.deps) :
    ∃ a, Relation.TransGen (depends1 rem) a a := by
  choose g hmem hdep using hstep
  let f : Nat → {x : RawTask // x ∈ rem} := fun n =>
    Nat.rec ⟨t₀, h0⟩ (fun _ p => ⟨g p.1 p.2, hmem p.1 p.2⟩) n
  have hstep1 : ∀ n, depends1 rem ((f n).1).id ((f (n + 1)).1).id := by
    intro n
    exact ⟨(f n).1, (f n).2, rfl, hdep (f n).1 (f n).2⟩
  have hchain : ∀ m n, m < n →
      Relation.TransGen (depends1 rem) ((f m).1).id ((f n).1).id := by
    intro m n
    induction n with
    | zero => omega
    | succ k ih =>
      intro hmn
      rcases Nat.lt_succ_iff_lt_or_eq.mp hmn with h | h
      · exact (ih h).tail (hstep1 k)
      · subst h
        exact Relation.TransGen.single (hstep1 m)
  have hmaps : ∀ n ∈ Finset.range (rem.length + 1),
      ((f n).1).id ∈ (taskIds rem).toFinset := by
    intro n _
    rw [List.mem_toFinset]
    exact List.mem_map_of_mem RawTask.id (f n).2
  have hcard : (taskIds rem).toFinset.card < (Finset.range (rem.length + 1)).card := by
    rw [Finset.card_range]
    calc (taskIds rem).toFinset.card
        ≤ (taskIds rem).length := List.toFinset_card_le _
      _ = rem.length := List.length_map _ _
      _ < rem.length + 1 := Nat.lt_succ_self _
  obtain ⟨m, _, n, _, hmn, heq⟩ :=
    Finset.exists_ne_map_eq_of_card_lt_of_maps_to hcard hmaps
  rcases Nat.lt_or_ge m n with hlt | hge
  · refine ⟨((f n).1).id, ?_⟩
    have hc := hchain m n hlt
    rwa [heq] at hc
  · have hlt : n < m := Nat.lt_of_le_of_ne hge (fun e => hmn e.symm)
    refine ⟨((f m).1).id, ?_⟩
    have hc := hchain n m hlt
    rwa [← heq] at hc

/-- If all dependencies are closed over `done` and the remaining tasks, and
the remaining tasks carry no transitive self-dependency, some task is
ready. -/
theorem pickReady_progress (done : List String) (rem : List RawTask)
    (hne : rem ≠ [])
    (hclosed : ∀ t ∈ rem, ∀ d ∈ t.deps, d ∈ done ∨ d ∈ taskIds rem)
    (hacyc : ∀ a, ¬ Relation.TransGen (depends1 rem) a a) :
    ∃ t rest, pickReady done rem = some (t, rest) := by
  cases hp : pickReady done rem with
  | some p =>
    obtain ⟨t, rest⟩ := p
    exact ⟨t, rest, rfl⟩
  | none =>
    exfalso
    have hnr := pickReady_none done rem hp
    have hstep : ∀ t ∈ rem, ∃ u ∈ rem, u.id ∈ t.deps := by
      intro t ht
      have hrf := hnr t ht
      have hex : ∃ d ∈ t.deps, d ∉ done := by
        by_contra hco
        push_neg at hco
        have hrt : ready done t = true := by
          unfold ready
          rw [List.all_eq_true]
          intro d hd
          exact decide_eq_true (hco d hd)
        rw [hrt] at hrf
        cases hrf
      obtain ⟨d, hd, hdne⟩ := hex
      rcases hclosed t ht d hd with hmem | hmem
      · exact absurd hmem hdne
      · obtain ⟨u, hu, hud⟩ := List.mem_map.mp hmem
        exact ⟨u, hu, by rw [hud]; exact hd⟩
    obtain ⟨t₀, ht₀⟩ : ∃ t, t ∈ rem := by
      cases rem with
      | nil => exact absurd rfl hne
      | cons t ts => exact ⟨t, List.mem_cons_self _ _⟩
    obtain ⟨a, hc⟩ := cycle_of_step rem t₀ ht₀ hstep
    exact hacyc a hc

/-- On a dependency-closed, acyclic task set, the topological-sort attempt
succeeds. -/
theorem topo_total :
    ∀ (n : Nat) (done : List String) (rem : List RawTask),
      rem.length = n →
      (∀ t ∈ rem, ∀ d ∈ t.deps, d ∈ done ∨ d ∈ taskIds rem) →
      (∀ a, ¬ Relation.TransGen (depends1 rem) a a) →
      ∃ g, topo n done rem = some g := by
  intro n
  induction n with
  | zero =>
    intro done rem hlen _ _
    have hempty : rem = [] := List.length_eq_zero.mp hlen
    subst hempty
    exact ⟨[], rfl⟩
  | succ k ih =>
    intro done rem hlen hclosed hacyc
    have hne : rem ≠ [] := by
      intro h
      subst h
      simp at hlen
    obtain ⟨t, rest, hpick⟩ := pickReady_progress done rem hne hclosed hacyc
    obtain ⟨pre, post, hrem, hrest, _, _⟩ := pickReady_some done rem t rest hpick
    have hperm : rem.Perm (t :: rest) := by
      rw [hrem, hrest]
      exact List.perm_middle
    have hsub : ∀ u ∈ rest, u ∈ rem := by
      intro u hu
      exact hperm.mem_iff.mpr (List.mem_cons_of_mem _ hu)
    have hlenrest : rest.length = k := by
      have : rem.length = rest.length + 1 := by
        rw [hperm.length_eq]
        rfl
      omega
    have hidperm : (taskIds rem).Perm (t.id :: taskIds rest) := hperm.map RawTask.id
    have hclosed' : ∀ u ∈ rest, ∀ d ∈ u.deps, d ∈ t.id :: done ∨ d ∈ taskIds rest := by
      intro u hu d hd
      rcases hclosed u (hsub u hu) d hd with h | h
      · exact Or.inl (List.mem_cons_of_mem _ h)
      · rcases List.mem_cons.mp (hidperm.mem_iff.mp h) with rfl | h2
        · exact Or.inl (List.mem_cons_self _ _)
        · exact Or.inr h2
    have hacyc' : ∀ a, ¬ Relation.TransGen (depends1 rest) a a := by
      intro a hc
      refine hacyc a (hc.mono ?_)
      intro x y hxy
      obtain ⟨u, hu, h1, h2⟩ := hxy
      exact ⟨u, hsub u hu, h1, h2⟩
    obtain ⟨g, hg⟩ := ih (t.id :: done) rest hlenrest hclosed' hacyc'
    refine ⟨t :: g, ?_⟩
    rw [topo_succ_some k done rem t rest hpick, hg]
    rfl

/-- Position of the first occurrence of a string in a list. -/
def posOf (a : String) : List String → Nat
  | [] => 0
  | b :: l => if b = a then 0 else posOf a l + 1

/-- Unfolding `posOf` on a cons cell. -/
theorem posOf_cons (a b : String) (l : List String) :
    posOf a (b :: l) = if b = a then 0 else posOf a l + 1 := rfl

/-- One dependency step in a sorted list goes to the initially-done ids or
strictly backwards in the ordering (given pairwise-distinct ids). -/
theorem depends1_pos (g : List RawTask) :
    ∀ (done : List String), sortedOk done g → (g.map RawTask.id).Nodup →
      ∀ a b, depends1 g a b →
        b ∈ done ∨ (b ∈ g.map RawTask.id ∧ a ∈ g.map RawTask.id ∧
          posOf b (g.map RawTask.id) < posOf a (g.map RawTask.id)) := by
  induction g with
  | nil =>
    intro done _ _ a b hd
    obtain ⟨t, ht, _, _⟩ := hd
    cases ht
  | cons t ts ih =>
    intro done hs hnd a b hd
    obtain ⟨hdeps, hts⟩ := hs
    rw [List.map_cons, List.nodup_cons] at hnd
    obtain ⟨u, hu, rfl, hb⟩ := hd
    rcases List.mem_cons.mp hu with rfl | hu2
    · exact Or.inl (hdeps b hb)
    · have hd' : depends1 ts u.id b := ⟨u, hu2, rfl, hb⟩
      have hane : t.id ≠ u.id := by
        intro h
        exact hnd.1 (h ▸ List.mem_map_of_mem RawTask.id hu2)
      have hamem : u.id ∈ (t :: ts).map RawTask.id :=
        List.mem_cons_of_mem _ (List.mem_map_of_mem RawTask.id hu2)
      have hapos : posOf u.id ((t :: ts).map RawTask.id) =
          posOf u.id (ts.map RawTask.id) + 1 := by
        rw [List.map_cons, posOf_cons, if_neg hane]
      rcases ih (t.id :: done) hts hnd.2 u.id b hd' with hbin | ⟨hb1, _, hlt⟩
      · rcases List.mem_cons.mp hbin with rfl | hbin2
        · refine Or.inr ⟨List.mem_cons_self _ _, hamem, ?_⟩
          rw [hapos, List.map_cons, posOf_cons, if_pos rfl]
          omega
        · exact Or.inl hbin2
      · have hbne : t.id ≠ b := by
          intro h
          exact hnd.1 (h ▸ hb1)
        have hbpos : posOf b ((t :: ts).map RawTask.id) =
            posOf b (ts.map RawTask.id) + 1 := by
          rw [List.map_cons, posOf_cons, if_neg hbne]
        refine Or.inr ⟨List.mem_cons_of_mem _ hb1, hamem, ?_⟩
        rw [hapos, hbpos]
        omega

/-- A transitive dependency chain in a sorted list starts inside the list
and, unless it escapes to the initially-done ids, lands strictly earlier. -/
theorem transGen_pos (g : List RawTask) (done : List String)
    (hs : sortedOk done g) (hnd : (g.map RawTask.id).Nodup)
    (hdisj : ∀ d ∈ done, d ∉ g.map RawTask.id) :
    ∀ a b, Relation.TransGen (depends1 g) a b →
      a ∈ g.map RawTask.id ∧
      (b ∈ done ∨ (b ∈ g.map RawTask.id ∧
        posOf b (g.map RawTask.id) < posOf a (g.map RawTask.id))) := by
  intro a b h
  induction h with
  | single hstep =>
    obtain ⟨u, hu, rfl, hb⟩ := hstep
    rcases depends1_pos g done hs hnd _ _ ⟨u, hu, rfl, hb⟩ with h | ⟨h1, _, h3⟩
    · exact ⟨List.mem_map_of_mem RawTask.id hu, Or.inl h⟩
    · exact ⟨List.mem_map_of_mem RawTask.id hu, Or.inr ⟨h1, h3⟩⟩
  | tail hab hbc ih =>
    obtain ⟨ha, hrest⟩ := ih
    rcases hrest with hbin | ⟨hb1, hlt⟩
    · obtain ⟨u, hu, rfl, _⟩ := hbc
      exact absurd (List.mem_map_of_mem RawTask.id hu) (hdisj _ hbin)
    · rcases depends1_pos g done hs hnd _ _ hbc with hcin | ⟨hc1, _, hlt'⟩
      · exact ⟨ha, Or.inl hcin⟩
      · exact ⟨ha, Or.inr ⟨hc1, hlt'.trans hlt⟩⟩

/-- A list in valid topological order with pairwise-distinct ids carries no
transitive self-dependency. -/
theorem sortedOk_acyclic (g : List RawTask) (hs : sortedOk [] g)
    (hnd : (g.map RawTask.id).Nodup) :
    ∀ a, ¬ Relation.TransGen (depends1 g) a a := by
  intro a hc
  obtain ⟨_, hrest⟩ :=
    transGen_pos g [] hs hnd (fun d hd => absurd hd (List.not_mem_nil d)) a a hc
  rcases hrest with h | ⟨_, hlt⟩
  · exact absurd h (List.not_mem_nil a)
  · omega

/-- Direct dependency steps only depend on the task set's membership, so
they transfer across permutations. -/
theorem depends1_perm {l₁ l₂ : List RawTask} (h : l₁.Perm l₂) (a b : String) :
    depends1 l₁ a b ↔ depends1 l₂ a b := by
  constructor
  · intro ⟨t, ht, h1, h2⟩
    exact ⟨t, h.mem_iff.mp ht, h1, h2⟩
  · intro ⟨t, ht, h1, h2⟩
    exact ⟨t, h.mem_iff.mpr ht, h1, h2⟩

/-- A Bool that is not true is false. -/
theorem bool_eq_false {b : Bool} (h : ¬ b = true) : b = false := by
  revert h
  cases b <;> simp

/-- The dangling-dependency check passes exactly when every referenced
dependency id exists. -/
theorem depsExist_iff (raw : List RawTask) :
    depsExist raw ↔
      (raw.any fun t => t.deps.any fun d => decide (d ∉ taskIds raw)) = false := by
  rw [List.any_eq_false]
  constructor
  · intro h t ht
    rw [List.any_eq_true]
    rintro ⟨d, hd, hdec⟩
    exact (of_decide_eq_true hdec) (h t ht d hd)
  · intro h t ht d hd
    by_contra hmem
    have hne := h t ht
    rw [List.any_eq_true] at hne
    exact hne ⟨d, hd, decide_eq_true hmem⟩

/-- The empty-description check passes exactly when every description is
non-empty. -/
theorem descsOk_iff (raw : List RawTask) :
    descsOk raw ↔ (raw.any fun t => decide (t.description = "")) = false := by
  rw [List.any_eq_false]
  constructor
  · intro h t ht hdec
    exact (h t ht) (of_decide_eq_true hdec)
  · intro h t ht heq
    exact (h t ht) (decide_eq_true heq)

/-- `build` fails with DANGLING_DEPENDENCY when the dangling check fires. -/
theorem build_eq_dangling (raw : List RawTask)
    (h : (raw.any fun t => t.deps.any fun d => decide (d ∉ taskIds raw)) = true) :
    build raw = Except.error BuildError.DANGLING_DEPENDENCY := by
  unfold build
  rw [if_pos h]

/-- `build` fails with EMPTY_DESCRIPTION when the dangling check passes and
the description check fires. -/
theorem build_eq_empty (raw : List RawTask)
    (h1 : (raw.any fun t => t.deps.any fun d => decide (d ∉ taskIds raw)) = false)
    (h2 : (raw.any fun t => decide (t.description = "")) = true) :
    build raw = Except.error BuildError.EMPTY_DESCRIPTION := by
  unfold build
  rw [h1, h2]
  rfl

/-- `build` reduces to the topological-sort attempt when both checks
pass. -/
theorem build_eq_top (raw : List RawTask)
    (h1 : (raw.any fun t => t.deps.any fun d => decide (d ∉ taskIds raw)) = false)
    (h2 : (raw.any fun t => decide (t.description = "")) = false) :
    build raw =
      match topo raw.length [] raw with
      | some g => Except.ok g
      | none => Except.error BuildError.CYCLE_DETECTED := by
  unfold build
  rw [h1, h2]
  rfl

/-- Inversion of a successful `build`: both checks passed and the
topological-sort attempt produced the output. -/
theorem build_ok_inv (raw g : List RawTask) (h : build raw = Except.ok g) :
    depsExist raw ∧ descsOk raw ∧ topo raw.length [] raw = some g := by
  by_cases h1 : (raw.any fun t => t.deps.any fun d => decide (d ∉ taskIds raw)) = true
  · rw [build_eq_dangling raw h1] at h
    cases h
  · have h1f := bool_eq_false h1
    by_cases h2 : (raw.any fun t => decide (t.description = "")) = true
    · rw [build_eq_empty raw h1f h2] at h
      cases h
    · have h2f := bool_eq_false h2
      rw [build_eq_top raw h1f h2f] at h
      refine ⟨(depsExist_iff raw).mpr h1f, (descsOk_iff raw).mpr h2f, ?_⟩
      cases ht : topo raw.length [] raw with
      | some g' =>
        rw [ht] at h
        have h' : Except.ok (ε := BuildError) g' = Except.ok g := h
        rw [Except.ok.inj h']
      | none =>
        rw [ht] at h
        have h' : Except.error (α := List RawTask) BuildError.CYCLE_DETECTED =
            Except.ok g := h
        cases h'

/-- C6: on task lists with pairwise-distinct ids, the Builder succeeds
exactly when every referenced dependency exists, every description is
non-empty and no task depends transitively on itself; a success is a
permutation of the input in valid topological order; and each violated
condition yields its respective error (dangling references checked first,
then descriptions, then cycles). -/
theorem build_correct (raw : List RawTask) (hnd : (raw.map RawTask.id).Nodup) :
    ((∃ g, build raw = Except.ok g) ↔
      (depsExist raw ∧ descsOk raw ∧ ¬ hasCycle raw)) ∧
    (∀ g, build raw = Except.ok g → g.Perm raw ∧ sortedOk [] g) ∧
    (¬ depsExist raw → build raw = Except.error BuildError.DANGLING_DEPENDENCY) ∧
    (depsExist raw → ¬ descsOk raw →
      build raw = Except.error BuildError.EMPTY_DESCRIPTION) ∧
    (depsExist raw → descsOk raw → hasCycle raw →
      build raw = Except.error BuildError.CYCLE_DETECTED) := by
  have hsuccess : ∀ g, build raw = Except.ok g → g.Perm raw ∧ sortedOk [] g := by
    intro g h
    obtain ⟨_, _, ht⟩ := build_ok_inv raw g h
    exact ⟨topo_perm raw.length [] raw g ht, topo_sorted raw.length [] raw g ht⟩
  have hnocycle : ∀ g, build raw = Except.ok g → ¬ hasCycle raw := by
    intro g h hcyc
    obtain ⟨hperm, hsort⟩ := hsuccess g h
    have hndg : (g.map RawTask.id).Nodup :=
      ((hperm.map RawTask.id).nodup_iff).mpr hnd
    obtain ⟨a, hc⟩ := hcyc
    have hcg : Relation.TransGen (depends1 g) a a :=
      hc.mono (fun x y hxy => (depends1_perm hperm x y).mpr hxy)
    exact sortedOk_acyclic g hsort hndg a hcg
  have hgood : depsExist raw → descsOk raw → ¬ hasCycle raw →
      ∃ g, build raw = Except.ok g := by
    intro h1 h2 h3
    obtain ⟨g, hg⟩ := topo_total raw.length [] raw rfl
      (fun t ht d hd => Or.inr (h1 t ht d hd))
      (fun a hc => h3 ⟨a, hc⟩)
    refine ⟨g, ?_⟩
    rw [build_eq_top raw ((depsExist_iff raw).mp h1) ((descsOk_iff raw).mp h2), hg]
  refine ⟨?_, hsuccess, ?_, ?_, ?_⟩
  · constructor
    · rintro ⟨g, hg⟩
      obtain ⟨h1, h2, _⟩ := build_ok_inv raw g hg
      exact ⟨h1, h2, hnocycle g hg⟩
    · rintro ⟨h1, h2, h3⟩
      exact hgood h1 h2 h3
  · intro h1
    have hb : (raw.any fun t => t.deps.any fun d => decide (d ∉ taskIds raw)) = true := by
      by_contra hb
      exact h1 ((depsExist_iff raw).mpr (bool_eq_false hb))
    exact build_eq_dangling raw hb
  · intro h1 h2
    have hb2 : (raw.any fun t => decide (t.description = "")) = true := by
      by_contra hb
      exact h2 ((descsOk_iff raw).mpr (bool_eq_false hb))
    exact build_eq_empty raw ((depsExist_iff raw).mp h1) hb2
  · intro h1 h2 h3
    rw [build_eq_top raw ((depsExist_iff raw).mp h1) ((descsOk_iff raw).mp h2)]
    cases ht : topo raw.length [] raw with
    | none => rfl
    | some g =>
      exfalso
      have hg : build raw = Except.ok g := by
        rw [build_eq_top raw ((depsExist_iff raw).mp h1) ((descsOk_iff raw).mp h2), ht]
      exact hnocycle g hg h3

/-- Scenario D task: A depends on B. -/
def taskA : RawTask := { id := "A", description := "a", deps := ["B"], effort := 1 }

/-- Scenario D task: B depends on A. -/
def taskB : RawTask := { id := "B", description := "b", deps := ["A"], effort := 1 }

/-- Witness for C6: Scenario D — tasks {A depends on B, B depends on A}
make the Builder return CYCLE_DETECTED. -/
theorem build_correct_witness :
    build [taskA, taskB] = Except.error BuildError.CYCLE_DETECTED := by
  have s1 : depends1 [taskA, taskB] "A" "B" :=
    ⟨taskA, List.mem_cons_self _ _, rfl, by decide⟩
  have s2 : depends1 [taskA, taskB] "B" "A" :=
    ⟨taskB, List.mem_cons_of_mem _ (List.mem_cons_self _ _), rfl, by decide⟩
  have hcyc : hasCycle [taskA, taskB] :=
    ⟨"A", Relation.TransGen.tail (Relation.TransGen.single s1) s2⟩
  exact (build_correct [taskA, taskB] (by decide)).2.2.2.2
    (by unfold depsExist; decide) (by unfold descsOk; decide) hcyc

/-- If a node has no outgoing dependency step, nothing is transitively
reachable from it. -/
theorem transGen_no_step {α : Type} {r : α → α → Prop} {a : α}
    (h : ∀ b, ¬ r a b) : ∀ z, ¬ Relation.TransGen r a z := by
  intro z hz
  obtain ⟨c, h1, _⟩ := (Relation.TransGen.head'_iff).mp hz
  exact h c h1

/-- Counterexample task: X depends on the later-declared B. -/
def taskX : RawTask := { id := "X", description := "x", deps := ["B"], effort := 1 }

/-- Counterexample task: Y has no dependencies. -/
def taskY : RawTask := { id := "Y", description := "y", deps := [], effort := 1 }

/-- Counterexample task: B has no dependencies and is declared last. -/
def taskB0 : RawTask := { id := "B", description := "b", deps := [], effort := 1 }

/-- No dependency step leaves "Y" in the counterexample task set. -/
theorem counterexample_no_step_Y :
    ∀ b, ¬ depends1 [taskX, taskY, taskB0] "Y" b := by
  rintro b ⟨t, ht, hid, hdep⟩
  rcases List.mem_cons.mp ht with rfl | ht2
  · exact absurd hid (by decide)
  rcases List.mem_cons.mp ht2 with rfl | ht3
  · exact absurd hdep (by simp [taskY])
  rcases List.mem_cons.mp ht3 with rfl | ht4
  · exact absurd hid (by decide)
  · exact absurd ht4 (List.not_mem_nil t)

/-- No dependency step leaves "B" in the counterexample task set. -/
theorem counterexample_no_step_B :
    ∀ b, ¬ depends1 [taskX, taskY, taskB0] "B" b := by
  rintro b ⟨t, ht, hid, hdep⟩
  rcases List.mem_cons.mp ht with rfl | ht2
  · exact absurd hid (by decide)
  rcases List.mem_cons.mp ht2 with rfl | ht3
  · exact absurd hid (by decide)
  rcases List.mem_cons.mp ht3 with rfl | ht4
  · exact absurd hdep (by simp [taskB0])
  · exact absurd ht4 (List.not_mem_nil t)

/-- Every dependency step from "X" in the counterexample set reaches "B". -/
theorem counterexample_step_X :
    ∀ b, depends1 [taskX, taskY, taskB0] "X" b → b = "B" := by
  rintro b ⟨t, ht, hid, hdep⟩
  rcases List.mem_cons.mp ht with rfl | ht2
  · have : b ∈ ["B"] := hdep
    simpa using this
  rcases List.mem_cons.mp ht2 with rfl | ht3
  · exact absurd hid (by decide)
  rcases List.mem_cons.mp ht3 with rfl | ht4
  · exact absurd hid (by decide)
  · exact absurd ht4 (List.not_mem_nil t)

/-- Counterexample to C7 as stated: the Builder succeeds on
[X(depends on B), Y, B]; X and Y are mutually independent and X is declared
before Y, yet the produced ordering places Y before X — original
declaration order is not preserved among mutually independent tasks. -/
theorem build_stability_counterexample :
    build [taskX, taskY, taskB0] = Except.ok [taskY, taskB0, taskX] ∧
    (¬ dependsOn [taskX, taskY, taskB0] "X" "Y") ∧
    (¬ dependsOn [taskX, taskY, taskB0] "Y" "X") ∧
    posOf "X" (taskIds [taskX, taskY, taskB0]) <
      posOf "Y" (taskIds [taskX, taskY, taskB0]) ∧
    posOf "Y" (taskIds [taskY, taskB0, taskX]) <
      posOf "X" (taskIds [taskY, taskB0, taskX]) := by
  refine ⟨by rfl, ?_, ?_, by decide, by decide⟩
  · intro h
    obtain ⟨c, h1, h2⟩ := (Relation.TransGen.head'_iff).mp h
    obtain rfl : c = "B" := counterexample_step_X c h1
    rcases (Relation.ReflTransGen.cases_head h2) with heq | ⟨d, hd, _⟩
    · exact absurd heq (by decide)
    · exact counterexample_no_step_B d hd
  · exact transGen_no_step counterexample_no_step_Y "X"

/-- C7 (amended): the Builder is idempotent — re-running it on its own
output returns that output unchanged — and stable in the sense that an
input already in valid topological order is returned as-is. -/
theorem build_idempotent (raw g : List RawTask) (h : build raw = Except.ok g) :
    build g = Except.ok g ∧ (sortedOk [] raw → g = raw) := by
  obtain ⟨h1, h2, ht⟩ := build_ok_inv raw g h
  have hperm : g.Perm raw := topo_perm raw.length [] raw g ht
  have hsort : sortedOk [] g := topo_sorted raw.length [] raw g ht
  constructor
  · have h1g : depsExist g := by
      intro t htg d hd
      have hmem := h1 t (hperm.mem_iff.mp htg) d hd
      exact ((hperm.map RawTask.id).mem_iff).mpr hmem
    have h2g : descsOk g := fun t htg => h2 t (hperm.mem_iff.mp htg)
    rw [build_eq_top g ((depsExist_iff g).mp h1g) ((descsOk_iff g).mp h2g),
      topo_of_sorted g [] hsort]
  · intro hsraw
    have hraw := topo_of_sorted raw [] hsraw
    rw [hraw] at ht
    exact (Option.some.inj ht).symm

/-- Witness for C7 (amended): re-running the Builder on the sorted list
[Y, B, X] returns it unchanged, and building it from itself is idempotent. -/
theorem build_idempotent_witness :
    build [taskY, taskB0, taskX] = Except.ok [taskY, taskB0, taskX] ∧
    ([taskY, taskB0, taskX] : List RawTask) = [taskY, taskB0, taskX] := by
  have h : build [taskY, taskB0, taskX] = Except.ok [taskY, taskB0, taskX] := by
    rfl
  have hres := build_idempotent [taskY, taskB0, taskX] [taskY, taskB0, taskX] h
  exact ⟨hres.1, hres.2 ⟨by decide, by decide, by decide, trivial⟩⟩
